import Mathlib

/-!
Shallow embedding of the MYFUSION universal RL controller core
(src/rl/advanced_rewards.py, src/rl/universal_controller.py,
src/rl/safety_constraints.py, src/rl/app_state_mapper.py,
src/rl/orchestrator_wrapper.py) and proofs about its specification.

Python strings are modelled as lists of characters, Python floats as
rationals, Python ints as integers, and Python dict fields that may be
absent as `Option` values (so that each call site applies its own
`.get` default, exactly as in the source).
-/

namespace MyFusionRL

/-- Python strings are modelled as lists of characters. -/
abbrev Str := List Char

/-- Health/action/environment string constants used by the source. -/
def s_healthy : Str := "healthy".data

def s_degraded : Str := "degraded".data

def s_failed : Str := "failed".data

def s_unknown : Str := "unknown".data

def s_deploy : Str := "deploy".data

def s_stop : Str := "stop".data

def s_restart : Str := "restart".data

def s_scale_up : Str := "scale_up".data

def s_scale_down : Str := "scale_down".data

def s_rollback : Str := "rollback".data

def s_prod : Str := "prod".data

def s_up : Str := "up".data

def s_down : Str := "down".data

def s_strict : Str := "STRICT".data

/-- A Python state dict as passed around the controller.  Every field is
optional: `none` models a missing key, so each access site can apply the
default of its own `.get(key, default)` call. -/
structure PyState where
  status : Option Str := none
  error_rate : Option ℚ := none
  response_time : Option ℚ := none
  avg_latency : Option ℚ := none
  cpu_usage : Option ℚ := none
  memory_usage : Option ℚ := none
  uptime : Option ℚ := none
  workers : Option ℤ := none
deriving DecidableEq

/-! ## Reward model (src/rl/advanced_rewards.py) -/

/-- Lookup in the dict `status_values = ('failed': 0, 'degraded': 1,
'healthy': 2)` with `.get(status, 0)` default 0, from
`AdvancedRewardCalculator._stability_reward`. -/
def status_values (s : Str) : ℤ :=
  if s = s_failed then 0
  else if s = s_degraded then 1
  else if s = s_healthy then 2
  else 0

/-- Embedding of `AdvancedRewardCalculator._stability_reward`. -/
def stability_reward (prev_state new_state : PyState) : ℚ :=
  let prev_status := prev_state.status.getD s_unknown
  let new_status := new_state.status.getD s_unknown
  let prev_val := status_values prev_status
  let new_val := status_values new_status
  let improvement := new_val - prev_val
  if improvement > 0 then (improvement : ℚ) * 3.0
  else if improvement < 0 then (improvement : ℚ) * 2.0
  else if new_status = s_healthy then 1.0 else 0.0

/-- Embedding of `AdvancedRewardCalculator._performance_reward`.  The
source divides by `prev_latency` with float division; here `q / 0 = 0`
stands in for the (never clamped away) zero-denominator edge case. -/
def performance_reward (prev_state new_state : PyState) : ℚ :=
  let prev_latency := prev_state.avg_latency.getD 100
  let new_latency := new_state.avg_latency.getD 100
  let prev_error := prev_state.error_rate.getD 0
  let new_error := new_state.error_rate.getD 0
  let latency_improvement := (prev_latency - new_latency) / prev_latency
  let latency_reward := latency_improvement * 4.0
  let error_improvement := prev_error - new_error
  let error_reward := error_improvement * 10.0
  latency_reward + error_reward

/-- Embedding of `AdvancedRewardCalculator._efficiency_reward`. -/
def efficiency_reward (new_state : PyState) (action : Str) : ℚ :=
  let cpu := new_state.cpu_usage.getD 0
  let memory := new_state.memory_usage.getD 0
  let cpu_efficiency :=
    if 0.6 ≤ cpu ∧ cpu ≤ 0.8 then 1.0 - |cpu - 0.7| else -|cpu - 0.7|
  let memory_efficiency :=
    if 0.5 ≤ memory ∧ memory ≤ 0.7 then 1.0 - |memory - 0.6| else -|memory - 0.6|
  let action_penalty :=
    if (action = s_scale_up ∨ action = s_deploy) ∧ (cpu > 0.8 ∨ memory > 0.8)
    then (-2.0 : ℚ) else 0
  (cpu_efficiency + memory_efficiency) * 2.0 + action_penalty

/-- Embedding of `AdvancedRewardCalculator._reliability_reward`. -/
def reliability_reward (new_state : PyState) (_app_name : Str) : ℚ :=
  let uptime := new_state.uptime.getD 0
  let workers := new_state.workers.getD 1
  let uptime_reward := min 2.0 (uptime / 3600)
  let worker_stability :=
    if 1 ≤ workers ∧ workers ≤ 3 then (1.0 : ℚ) else -(|workers - 2| : ℤ) * 0.5
  uptime_reward + worker_stability

/-- Embedding of `AdvancedRewardCalculator.calculate_reward`: the
weighted combination of the four sub-rewards, clamped by
`max(-10, min(10, total_reward))`. -/
def calculate_reward (prev_state : PyState) (action : Str) (new_state : PyState)
    (app_name : Str) : ℚ :=
  let total_reward :=
    stability_reward prev_state new_state * 0.3 +
    performance_reward prev_state new_state * 0.25 +
    efficiency_reward new_state action * 0.25 +
    reliability_reward new_state app_name * 0.2
  max (-10) (min 10 total_reward)

/-! ## The second reward formula (src/rl/universal_controller.py) -/

/-- Python `round(x, 2)` modelled over the rationals: round `x * 100` to
the nearest integer and divide by 100.  (Python rounds float halves to
even; every value this development evaluates is exact at two decimals,
where the two rules agree.) -/
def round2 (x : ℚ) : ℚ := (round (x * 100) : ℤ) / 100

/-- Embedding of `UniversalRLController.compute_reward`: the running
`reward` accumulator is threaded explicitly, one `let` per statement. -/
def compute_reward (pre_state post_state : PyState) : ℚ :=
  let r0 : ℚ := 0.0
  let r1 :=
    if post_state.status = some s_healthy ∧ pre_state.status ≠ some s_healthy
    then r0 + 15.0
    else if post_state.status = some s_failed then r0 - 20.0
    else if post_state.status = some s_degraded then r0 - 5.0
    else r0
  let pre_latency := pre_state.response_time.getD 1000
  let post_latency := post_state.response_time.getD 1000
  let latency_improvement :=
    if pre_latency > 0 then (pre_latency - post_latency) / pre_latency else 0
  let r2 := r1 + latency_improvement * 10.0
  let pre_error := pre_state.error_rate.getD 0.0
  let post_error := post_state.error_rate.getD 0.0
  let error_delta := post_error - pre_error
  let r3 := if error_delta > 0 then r2 - error_delta * 25.0 else r2 + |error_delta| * 15.0
  let r4 :=
    if post_state.status = some s_healthy then
      let uptime := post_state.uptime.getD 0
      if uptime < 300 then r3 - 3.0 else if uptime > 3600 then r3 + 2.0 else r3
    else r3
  let cpu_usage := post_state.cpu_usage.getD 0.5
  let memory_usage := post_state.memory_usage.getD 0.5
  let r5 :=
    if cpu_usage < 0.3 ∧ memory_usage < 0.4 then r4 + 1.0
    else if cpu_usage > 0.8 ∨ memory_usage > 0.8 then r4 - 2.0
    else r4
  round2 r5

/-! ## Safety constraints (src/rl/safety_constraints.py) -/

/-- The scaling block of an application spec
(`spec.get('scaling', dict()).get(...)` call sites). -/
structure Scaling where
  min_workers : Option ℤ := none
  max_workers : Option ℤ := none
deriving DecidableEq

/-- An application spec dict as consumed by the controller and the
safety gate.  `has_name`/`has_type` record whether the required keys
`name`/`type` are present; the other fields model optional keys.
`environment_constraints` is the dict env ↦ forbidden_actions
(the only sub-key `_validate_against_schema` reads). -/
structure AppSpec where
  has_name : Bool := false
  has_type : Bool := false
  scaling : Option Scaling := none
  custom_actions : Option (List Str) := none
  actions : Option (List Str) := none
  environment_constraints : List (Str × List Str) := []
deriving DecidableEq

/-- Dict lookup in an association list (first matching key wins, as a
Python dict has unique keys). -/
def dict_get (l : List (Str × List Str)) (k : Str) : Option (List Str) :=
  (l.find? (fun p => decide (p.1 = k))).map (·.2)

/-- The violation messages `enforce_constraints` can append, one
constructor per formatted string of the source, carrying the values
interpolated into the message. -/
inductive Violation where
  | actionNotInSpec (action : Str) (valid : List Str)
  | forbiddenByEnvSpec (action env : Str)
  | workerLimit (current maxAllowed : ℤ)
  | prodForbidden (action : Str)
  | minUptime (uptime floor : ℚ)
  | freqLimit (n : ℕ)
deriving DecidableEq

/-- The `constraints` block plus `enforcement_level` of a safety schema
(`SafetyConstraints._load_safety_schema`). -/
structure SafetySchema where
  max_workers_global : ℤ
  max_workers_per_app : ℤ
  min_uptime_before_action : ℚ
  max_actions_per_minute : ℕ
  forbidden_prod_actions : List Str
  required_approval_actions : List Str
  enforcement_level : Str
deriving DecidableEq

/-- The `default_schema` literal of `SafetyConstraints._load_safety_schema`
(used whenever no schema file exists). -/
def default_schema : SafetySchema where
  max_workers_global := 10
  max_workers_per_app := 3
  min_uptime_before_action := 30
  max_actions_per_minute := 5
  forbidden_prod_actions := [s_stop]
  required_approval_actions := [s_scale_up]
  enforcement_level := s_strict

/-- One entry of `self.action_history`
(`SafetyConstraints._log_action_attempt`). -/
structure HistoryEntry where
  action : Str
  app_name : Str
  env : Str
  timestamp : ℚ
  violations : List Violation
  allowed : Bool
deriving DecidableEq

/-- Embedding of `SafetyConstraints._validate_against_schema`. -/
def validate_against_schema (action env : Str) (app_spec : AppSpec) :
    List Violation :=
  let valid_actions := app_spec.actions.getD []
  let v1 : List Violation :=
    if action ∈ valid_actions then [] else [.actionNotInSpec action valid_actions]
  let v2 : List Violation :=
    match dict_get app_spec.environment_constraints env with
    | some forbidden => if action ∈ forbidden then [.forbiddenByEnvSpec action env] else []
    | none => []
  v1 ++ v2

/-- Embedding of `SafetyConstraints._get_recent_actions` with
`datetime.now().timestamp()` passed in as `now`. -/
def get_recent_actions (history : List HistoryEntry) (app_name env : Str)
    (now seconds : ℚ) : List HistoryEntry :=
  history.filter (fun a =>
    decide (a.app_name = app_name) && decide (a.env = env) &&
    decide (a.timestamp > now - seconds))

/-- Embedding of `SafetyConstraints._log_action_attempt`: append the
entry, then keep only the last 1000 entries. -/
def log_action_attempt (history : List HistoryEntry) (entry : HistoryEntry) :
    List HistoryEntry :=
  let h := history ++ [entry]
  if h.length > 1000 then h.drop (h.length - 1000) else h

/-- Result of one `enforce_constraints` call: the returned violations
list, the updated `action_history`, and whether a policy violation was
logged (`_log_policy_violation`, the STRICT early-return path). -/
structure EnforceResult where
  violations : List Violation
  action_history : List HistoryEntry
  policy_violation_logged : Bool
deriving DecidableEq

/-- The violations list built by the straight-line checks of
`SafetyConstraints.enforce_constraints` past the STRICT early return:
the schema violations followed by the worker-limit, production,
minimum-uptime and action-frequency checks, in source order. -/
def enforce_checks (schema : SafetySchema) (action app_name env : Str)
    (app_spec : AppSpec) (current_state : PyState)
    (history : List HistoryEntry) (now : ℚ) : List Violation :=
  let schema_violations := validate_against_schema action env app_spec
  let v_workers : List Violation :=
    if action ∈ [s_scale_up, s_deploy] then
      let current_workers := current_state.workers.getD 1
      let max_allowed :=
        min schema.max_workers_per_app
          ((app_spec.scaling.bind Scaling.max_workers).getD 3)
      if current_workers ≥ max_allowed then [.workerLimit current_workers max_allowed]
      else []
    else []
  let v_prod : List Violation :=
    if env = s_prod ∧ action ∈ schema.forbidden_prod_actions then [.prodForbidden action]
    else []
  let uptime := current_state.uptime.getD 0
  let v_uptime : List Violation :=
    if uptime < schema.min_uptime_before_action ∧ action ≠ s_deploy then
      [.minUptime uptime schema.min_uptime_before_action]
    else []
  let recent := get_recent_actions history app_name env now 60
  let v_freq : List Violation :=
    if recent.length ≥ schema.max_actions_per_minute then [.freqLimit recent.length]
    else []
  schema_violations ++ v_workers ++ v_prod ++ v_uptime ++ v_freq

/-- Embedding of `SafetyConstraints.enforce_constraints` with the
instance state (`action_history`) threaded explicitly and
`datetime.now().timestamp()` passed in as `now`. -/
def enforce_constraints (schema : SafetySchema) (action app_name env : Str)
    (app_spec : AppSpec) (current_state : PyState)
    (history : List HistoryEntry) (now : ℚ) : EnforceResult :=
  let schema_violations := validate_against_schema action env app_spec
  if schema_violations ≠ [] ∧ schema.enforcement_level = s_strict then
    { violations := schema_violations
      action_history := history
      policy_violation_logged := true }
  else
    let violations :=
      enforce_checks schema action app_name env app_spec current_state history now
    let entry : HistoryEntry :=
      { action := action, app_name := app_name, env := env, timestamp := now
        violations := violations, allowed := violations.isEmpty }
    { violations := violations
      action_history := log_action_attempt history entry
      policy_violation_logged := false }

/-! ## Q-table and policy store (src/rl/universal_controller.py) -/

/-- Fixed learning rate `self.alpha = 0.1`. -/
def alpha : ℚ := 0.1

/-- Fixed discount `self.gamma = 0.9`. -/
def gamma : ℚ := 0.9

/-- The Python dict `self.q_table` keyed by `(state, action)` tuples,
modelled as an association list in insertion order with unique keys. -/
abbrev QTable := List ((Str × Str) × ℚ)

/-- Dict read `self.q_table.get((state, action), 0.0)`: a pair not yet
present reads as 0. -/
def q_get (q : QTable) (k : Str × Str) : ℚ :=
  match q.find? (fun p => decide (p.1 = k)) with
  | some p => p.2
  | none => 0

/-- Dict write `self.q_table[(state, action)] = v`: overwrite the value
at an existing key, or append a new entry. -/
def q_set (q : QTable) (k : Str × Str) (v : ℚ) : QTable :=
  if q.any (fun p => decide (p.1 = k)) then
    q.map (fun p => if p.1 = k then (k, v) else p)
  else q ++ [(k, v)]

/-- Python `max(l, default=0.0)`: 0 on the empty list, the maximum
element otherwise. -/
def pymax (l : List ℚ) : ℚ :=
  match l with
  | [] => 0
  | x :: xs => xs.foldl max x

/-- Embedding of `UniversalRLController.update_rl_table` (its CSV audit
side effect is not part of the Q-table state): returns the updated table
and the `new_q` return value. -/
def update_rl_table (q : QTable) (state action : Str) (reward : ℚ)
    (next_state : Str) (valid_next_actions : List Str) : QTable × ℚ :=
  let current_q := q_get q (state, action)
  let max_next_q := pymax (valid_next_actions.map (fun a => q_get q (next_state, a)))
  let new_q := current_q + alpha * (reward + gamma * max_next_q - current_q)
  (q_set q (state, action) new_q, new_q)

/-- The f-string key join of `save_policy`: `f"(k[0])_(k[1])"`. -/
def join_key (state action : Str) : Str := state ++ '_' :: action

/-- Embedding of the `q_table` serialization in
`UniversalRLController.save_policy` (the metadata block of hyperparameters
and a timestamp does not touch the mapping and is omitted). -/
def save_policy (q : QTable) : List (Str × ℚ) :=
  q.map (fun p => (join_key p.1.1 p.1.2, p.2))

/-- Split a string at its first underscore, as Python
`k.split('_', 1)` does; `none` when the string has no underscore. -/
def break_underscore : Str → Option (Str × Str)
  | [] => none
  | c :: rest =>
    if c = '_' then some ([], rest)
    else (break_underscore rest).map (fun p => (c :: p.1, p.2))

/-- A key produced by Python `tuple(k.split('_', 1))`: a pair when the
delimiter occurs, otherwise a 1-tuple (the raw string). -/
abbrev PyKey := Str ⊕ (Str × Str)

/-- Result of `tuple(k.split('_', 1))` in `load_policy`. -/
def py_split_key (k : Str) : PyKey :=
  match break_underscore k with
  | some p => Sum.inr p
  | none => Sum.inl k

/-- Embedding of the `q_table` reconstruction in
`UniversalRLController.load_policy`. -/
def load_policy (saved : List (Str × ℚ)) : List (PyKey × ℚ) :=
  saved.map (fun p => (py_split_key p.1, p.2))

/-! ## App spec validation (src/rl/universal_controller.py) -/

/-- The `allowed_actions` literal of
`UniversalRLController._validate_app_spec`. -/
def allowed_actions : List Str :=
  [s_deploy, s_stop, s_restart, s_scale_up, s_scale_down, s_rollback]

/-- Embedding of `UniversalRLController._validate_app_spec`. -/
def validate_app_spec (spec : AppSpec) : Bool :=
  spec.has_name && spec.has_type &&
  (match spec.scaling with
   | some scaling =>
     !(match scaling.max_workers with | some m => decide (m > 10) | none => false) &&
     !(match scaling.min_workers with | some m => decide (m < 1) | none => false)
   | none => true) &&
  (match spec.custom_actions with
   | some acts => acts.all (fun a => decide (a ∈ allowed_actions))
   | none => true)

/-- Semantic step of `UniversalRLController.load_app_spec` once the file
has been read and parsed: `none` models the raised
`ValueError(Invalid app spec ...)`, `some spec` a successful load. -/
def load_app_spec_checked (spec : AppSpec) : Option AppSpec :=
  if validate_app_spec spec then some spec else none

/-! ## Discretized state key (src/rl/app_state_mapper.py) -/

/-- Little-endian decimal digits of a natural number, computed with an
explicit fuel bound so the definition is structural. -/
def digits_core (fuel n : ℕ) : List ℕ :=
  match fuel with
  | 0 => []
  | fuel + 1 => if n = 0 then [] else n % 10 :: digits_core fuel (n / 10)

/-- Little-endian decimal digits of `n` (empty for 0). -/
def nat_digits_rev (n : ℕ) : List ℕ := digits_core n n

/-- The character of one decimal digit. -/
def digit_char (d : ℕ) : Char := ("0123456789".data).getD d '?'

/-- Python `str(n)` for a natural number. -/
def nat_str (n : ℕ) : Str :=
  if n = 0 then ['0'] else ((nat_digits_rev n).reverse).map digit_char

/-- Python `str(z)` for an integer. -/
def int_str (z : ℤ) : Str :=
  if z < 0 then '-' :: nat_str z.natAbs else nat_str z.toNat

/-- The discretized state key of `extract_state`:
the f-string `app_env_status_err(bucket)` where `bucket` is
`int(error_rate * 100)`.  The key is a function of the
(app, env, status, error-rate-bucket) tuple alone. -/
def state_key (app_name env status : Str) (err_bucket : ℤ) : Str :=
  app_name ++ '_' :: (env ++ '_' :: (status ++ '_' :: ("err".data ++ int_str err_bucket)))

/-! ## Orchestrator wrapper (src/rl/orchestrator_wrapper.py) -/

/-- Worker count `OrchestratorAPI.scale` passes to the underlying
executor: the defaulting of `workers=None` by direction, then the clamp
`min(workers, self.max_workers)` / `max(workers, 1)` with
`self.max_workers = 3`.  `none` as a result models the `TypeError` Python
raises when `direction` is neither `up` nor `down` and no count is given
(`min(None, 3)`). -/
def scale_requested_workers (direction : Str) (workers : Option ℤ) : Option ℤ :=
  let w : Option ℤ :=
    match workers with
    | none =>
      if direction = s_up then some 2
      else if direction = s_down then some 1
      else none
    | some v => some v
  w.map (fun v => max (min v 3) 1)

/-! ## Decoding helpers used only to prove injectivity of the
serialized forms (not part of the source; inverses of the embeddings). -/

/-- Value of a little-endian digit list. -/
def of_digits_rev (l : List ℕ) : ℕ :=
  l.foldr (fun d acc => d + 10 * acc) 0

/-- Numeric value of a digit character. -/
def undigit (c : Char) : ℕ := c.toNat - 48

/-- Value of a big-endian digit string. -/
def parse_digits (s : Str) : ℕ :=
  s.foldl (fun acc c => acc * 10 + undigit c) 0

/-- An app spec with inverted scaling bounds: min_workers = 5 exceeds
max_workers = 3, while both lie inside [1, 10]. -/
def inverted_bounds_spec : AppSpec where
  has_name := true
  has_type := true
  scaling := some { min_workers := some 5, max_workers := some 3 }

/-! ## Theorems -/

/-- C1 (amended): for every prior state, action, posterior state and
application identifier — including extreme input magnitudes — the reward
computed by `AdvancedRewardCalculator.calculate_reward` lies in
[-10, 10], because of its final clamp `max(-10, min(10, total))`. -/
theorem calculate_reward_bounded (prev_state : PyState) (action : Str)
    (new_state : PyState) (app_name : Str) :
    -10 ≤ calculate_reward prev_state action new_state app_name ∧
      calculate_reward prev_state action new_state app_name ≤ 10 :=
  ⟨le_max_left _ _, max_le (by norm_num) (min_le_left _ _)⟩

/-- C1 (counterexample): `UniversalRLController.compute_reward` is not
bounded to [-10, 10]: for a transition from a healthy to a failed status
(all other metrics absent) it returns -20. -/
theorem compute_reward_not_bounded :
    compute_reward { status := some s_healthy } { status := some s_failed } = -20 ∧
      compute_reward { status := some s_healthy } { status := some s_failed } < -10 := by
  have h1 : s_failed ≠ s_healthy := by decide
  have h : compute_reward { status := some s_healthy } { status := some s_failed } = -20 := by
    simp only [compute_reward, Option.getD_none, Option.getD_some]
    norm_num [h1, round2, round_eq]
  exact ⟨h, by rw [h]; norm_num⟩

/-- C9 (counterexample): the stability sub-score is asymmetric in the
opposite direction from the claim: a one-level degradation
(healthy → degraded) scores -2.0 while a one-level improvement
(degraded → healthy) scores 3.0, so the penalty magnitude is NOT
strictly greater than the improvement reward. -/
theorem stability_reward_asymmetry_counterexample :
    stability_reward { status := some s_healthy } { status := some s_degraded } = -2 ∧
      stability_reward { status := some s_degraded } { status := some s_healthy } = 3 ∧
      ¬(|stability_reward { status := some s_healthy } { status := some s_degraded }| >
        |stability_reward { status := some s_degraded } { status := some s_healthy }|) := by
  have e1 : stability_reward { status := some s_healthy } { status := some s_degraded } = -2 := by
    simp +decide only [stability_reward, status_values, Option.getD_some]
    norm_num
  have e2 : stability_reward { status := some s_degraded } { status := some s_healthy } = 3 := by
    simp +decide only [stability_reward, status_values, Option.getD_some]
    norm_num
  refine ⟨e1, e2, ?_⟩
  rw [e1, e2]
  norm_num

/-- C9 (amended): the stability sub-score maps statuses to the ordinal
values failed = 0, degraded = 1, healthy = 2, and for every one-level
status change the magnitude of the penalty for a one-level degradation
(2.0) is strictly SMALLER than the reward for a one-level improvement
(3.0): improvement is rewarded more per unit than degradation is
penalized. -/
theorem stability_reward_asymmetry (prev_state new_state prev2 new2 : PyState)
    (hdeg : status_values (prev_state.status.getD s_unknown) =
      status_values (new_state.status.getD s_unknown) + 1)
    (himp : status_values (new2.status.getD s_unknown) =
      status_values (prev2.status.getD s_unknown) + 1) :
    stability_reward prev_state new_state = -2 ∧
      stability_reward prev2 new2 = 3 ∧
      |stability_reward prev_state new_state| < |stability_reward prev2 new2| := by
  have h1 : stability_reward prev_state new_state = -2 := by
    simp only [stability_reward]
    rw [hdeg]
    have hle : ¬ (status_values (new_state.status.getD s_unknown) -
        (status_values (new_state.status.getD s_unknown) + 1) > 0) := by omega
    have hlt2 : status_values (new_state.status.getD s_unknown) -
        (status_values (new_state.status.getD s_unknown) + 1) < 0 := by omega
    rw [if_neg hle, if_pos hlt2]
    have hval : status_values (new_state.status.getD s_unknown) -
        (status_values (new_state.status.getD s_unknown) + 1) = -1 := by omega
    rw [hval]
    norm_num
  have h2 : stability_reward prev2 new2 = 3 := by
    simp only [stability_reward]
    rw [himp]
    have hgt : status_values (prev2.status.getD s_unknown) + 1 -
        status_values (prev2.status.getD s_unknown) > 0 := by omega
    rw [if_pos hgt]
    have hval : status_values (prev2.status.getD s_unknown) + 1 -
        status_values (prev2.status.getD s_unknown) = 1 := by omega
    rw [hval]
    norm_num
  refine ⟨h1, h2, ?_⟩
  rw [h1, h2]
  norm_num

/-- Witness for `stability_reward_asymmetry` at the concrete one-level
transitions healthy → degraded and degraded → healthy. -/
theorem stability_reward_asymmetry_witness :
    stability_reward { status := some s_healthy } { status := some s_degraded } = -2 ∧
      stability_reward { status := some s_degraded } { status := some s_healthy } = 3 ∧
      |stability_reward { status := some s_healthy } { status := some s_degraded }| <
        |stability_reward { status := some s_degraded } { status := some s_healthy }| :=
  stability_reward_asymmetry _ _ _ _ (by decide) (by decide)

/-- C2: for every application spec, current state, action history and
clock value, `enforce_constraints` under the default safety schema with
action `stop` in the production environment returns a non-empty
violations list — the attempt is always BLOCKED, regardless of spec
content.  (Either the STRICT schema early-return fires with its own
non-empty list, or the `forbidden_prod_actions` rule appends a
violation.) -/
theorem stop_in_prod_always_blocked (app_name : Str) (app_spec : AppSpec)
    (current_state : PyState) (history : List HistoryEntry) (now : ℚ) :
    (enforce_constraints default_schema s_stop app_name s_prod app_spec
      current_state history now).violations ≠ [] := by
  by_cases hcond : validate_against_schema s_stop s_prod app_spec ≠ [] ∧
      default_schema.enforcement_level = s_strict
  · simp only [enforce_constraints]
    rw [if_pos hcond]
    exact hcond.1
  · simp only [enforce_constraints]
    rw [if_neg hcond]
    show enforce_checks default_schema s_stop app_name s_prod app_spec
      current_state history now ≠ []
    intro hc
    simp only [enforce_checks, List.append_eq_nil] at hc
    have hp := hc.1.1.2
    simp +decide at hp

/-- C6: for every spec and state, when the action is `scale_up` or
`deploy` and the current worker count is at least
`min(max_workers_per_app, spec max_workers default 3)`, the safety gate
returns a non-empty violations list (BLOCKED): execution requires the
current workers to be strictly below that minimum. -/
theorem scale_up_at_cap_blocked (action app_name env : Str) (app_spec : AppSpec)
    (current_state : PyState) (history : List HistoryEntry) (now : ℚ)
    (hact : action ∈ [s_scale_up, s_deploy])
    (hw : current_state.workers.getD 1 ≥
      min default_schema.max_workers_per_app
        ((app_spec.scaling.bind Scaling.max_workers).getD 3)) :
    (enforce_constraints default_schema action app_name env app_spec
      current_state history now).violations ≠ [] := by
  by_cases hcond : validate_against_schema action env app_spec ≠ [] ∧
      default_schema.enforcement_level = s_strict
  · simp only [enforce_constraints]
    rw [if_pos hcond]
    exact hcond.1
  · simp only [enforce_constraints]
    rw [if_neg hcond]
    show enforce_checks default_schema action app_name env app_spec
      current_state history now ≠ []
    intro hc
    simp only [enforce_checks, List.append_eq_nil] at hc
    have hwv := hc.1.1.1.2
    rw [if_pos hact, if_pos hw] at hwv
    exact absurd hwv (by simp)

/-- Witness for `scale_up_at_cap_blocked`: a `scale_up` on an app with
no scaling block (spec cap defaults to 3) while 5 workers run is
blocked. -/
theorem scale_up_at_cap_blocked_witness :
    (enforce_constraints default_schema s_scale_up "a".data "dev".data {}
      { workers := some 5 } [] 0).violations ≠ [] :=
  scale_up_at_cap_blocked _ _ _ _ _ _ _ (by decide)
    (by simp [default_schema])

/-- C8 (counterexample): an attempt blocked by a schema violation under
STRICT enforcement is NOT appended to the action history: with an empty
initial history, a `stop` whose spec declares no actions is blocked
(non-empty violations) yet the action history stays empty — no entry
records the attempt. -/
theorem blocked_attempt_not_logged :
    (enforce_constraints default_schema s_stop "a".data "dev".data {} {} [] 0).violations ≠ [] ∧
      (enforce_constraints default_schema s_stop "a".data "dev".data {} {} [] 0).action_history
        = [] := by
  have hcond : validate_against_schema s_stop "dev".data ({} : AppSpec) ≠ [] ∧
      default_schema.enforcement_level = s_strict := by decide
  constructor
  · simp only [enforce_constraints]
    rw [if_pos hcond]
    exact hcond.1
  · simp only [enforce_constraints]
    rw [if_pos hcond]

/-- Length of the action history after one `_log_action_attempt`. -/
theorem log_action_attempt_length (history : List HistoryEntry) (entry : HistoryEntry) :
    (log_action_attempt history entry).length = min (history.length + 1) 1000 := by
  simp only [log_action_attempt]
  split
  next h =>
    simp only [List.length_drop, List.length_append, List.length_singleton] at h ⊢
    omega
  next h =>
    simp only [List.length_append, List.length_singleton] at h ⊢
    omega

/-- The entry passed to `_log_action_attempt` is the last element of the
resulting history. -/
theorem log_action_attempt_getLast (history : List HistoryEntry) (entry : HistoryEntry) :
    (log_action_attempt history entry).getLast? = some entry := by
  simp only [log_action_attempt]
  split
  next h =>
    simp only [List.length_append, List.length_cons, List.length_nil] at h
    rw [List.drop_append_of_le_length (by simp), List.getLast?_concat]
  next h =>
    exact List.getLast?_concat _

/-- C8 (amended): whenever the attempt gets past the schema check (no
schema violations, or non-STRICT enforcement), exactly one entry
recording the attempt is appended to the action history ledger (the
ledger is then trimmed to its 1000-entry capacity); an attempt blocked
by a schema violation under STRICT enforcement is recorded in the
policy-violations log instead, and nothing is appended to the action
history. -/
theorem enforce_constraints_logs_attempt (schema : SafetySchema)
    (action app_name env : Str) (app_spec : AppSpec) (current_state : PyState)
    (history : List HistoryEntry) (now : ℚ)
    (h : validate_against_schema action env app_spec = [] ∨
      schema.enforcement_level ≠ s_strict) :
    (enforce_constraints schema action app_name env app_spec
        current_state history now).action_history.length
      = min (history.length + 1) 1000 ∧
    ∃ e : HistoryEntry,
      (enforce_constraints schema action app_name env app_spec
          current_state history now).action_history.getLast? = some e ∧
      e.action = action ∧ e.app_name = app_name ∧ e.env = env ∧ e.timestamp = now ∧
      e.violations = (enforce_constraints schema action app_name env app_spec
          current_state history now).violations := by
  have hcond : ¬ (validate_against_schema action env app_spec ≠ [] ∧
      schema.enforcement_level = s_strict) := by
    rcases h with h | h
    · exact fun hc => hc.1 h
    · exact fun hc => h hc.2
  simp only [enforce_constraints]
  rw [if_neg hcond]
  refine ⟨log_action_attempt_length _ _, _, log_action_attempt_getLast _ _,
    rfl, rfl, rfl, rfl, rfl⟩

/-- Witness for `enforce_constraints_logs_attempt`: a `deploy` declared
by the spec passes the schema check and appends exactly one history
entry to the empty ledger. -/
theorem enforce_constraints_logs_attempt_witness :
    (enforce_constraints default_schema s_deploy "a".data "dev".data
        { actions := some [s_deploy] } {} [] 0).action_history.length
      = min (([] : List HistoryEntry).length + 1) 1000 ∧
    ∃ e : HistoryEntry,
      (enforce_constraints default_schema s_deploy "a".data "dev".data
          { actions := some [s_deploy] } {} [] 0).action_history.getLast? = some e ∧
      e.action = s_deploy ∧ e.app_name = "a".data ∧ e.env = "dev".data ∧ e.timestamp = 0 ∧
      e.violations = (enforce_constraints default_schema s_deploy "a".data "dev".data
          { actions := some [s_deploy] } {} [] 0).violations :=
  enforce_constraints_logs_attempt _ _ _ _ _ _ _ _ (Or.inl (by decide))

/-- Every element of a list is bounded by `foldl max` over it. -/
theorem foldl_max_bounds (xs : List ℚ) (a : ℚ) :
    a ≤ xs.foldl max a ∧ ∀ y ∈ xs, y ≤ xs.foldl max a := by
  induction xs generalizing a with
  | nil => simp
  | cons x xs ih =>
    obtain ⟨h1, h2⟩ := ih (max a x)
    refine ⟨le_trans (le_max_left a x) h1, ?_⟩
    intro y hy
    rcases List.mem_cons.mp hy with rfl | hy
    · exact le_trans (le_max_right a y) h1
    · exact h2 y hy

/-- A `foldl max` is its seed or one of the list elements. -/
theorem foldl_max_mem (xs : List ℚ) (a : ℚ) :
    xs.foldl max a = a ∨ xs.foldl max a ∈ xs := by
  induction xs generalizing a with
  | nil => simp
  | cons x xs ih =>
    rcases ih (max a x) with h | h
    · rcases max_choice a x with hax | hax
      · left
        rw [List.foldl_cons, h, hax]
      · right
        rw [List.foldl_cons, h, hax]
        exact List.mem_cons_self x xs
    · right
      exact List.mem_cons_of_mem x h

/-- Python `max(l, default=0)` bounds every element of `l`. -/
theorem pymax_is_ub (l : List ℚ) (x : ℚ) (hx : x ∈ l) : x ≤ pymax l := by
  match l with
  | [] => exact absurd hx (by simp)
  | y :: ys =>
    rcases List.mem_cons.mp hx with rfl | hxs
    · exact (foldl_max_bounds ys x).1
    · exact (foldl_max_bounds ys y).2 x hxs

/-- Python `max(l, default=0)` of a non-empty list is an element. -/
theorem pymax_mem (l : List ℚ) (h : l ≠ []) : pymax l ∈ l := by
  match l with
  | [] => exact absurd rfl h
  | y :: ys =>
    rcases foldl_max_mem ys y with hm | hm
    · rw [pymax, hm]
      exact List.mem_cons_self y ys
    · exact List.mem_cons_of_mem y hm

/-- Reading a key that misses the head of an association list skips the
head. -/
theorem q_get_cons_ne (p : (Str × Str) × ℚ) (q : QTable) (k : Str × Str)
    (h : p.1 ≠ k) : q_get (p :: q) k = q_get q k := by
  simp [q_get, List.find?, h]

/-- Dict write followed by a read of the same key returns the written
value. -/
theorem q_get_q_set_self (q : QTable) (k : Str × Str) (v : ℚ) :
    q_get (q_set q k v) k = v := by
  induction q with
  | nil => simp [q_get, q_set, List.find?]
  | cons p q ih =>
    by_cases hpk : p.1 = k
    · simp [q_get, q_set, hpk, List.find?]
    · have hset : q_set (p :: q) k v = p :: q_set q k v := by
        by_cases ha : q.any (fun r => decide (r.1 = k)) <;>
          simp [q_set, List.any_cons, hpk, ha]
      rw [hset, q_get_cons_ne _ _ _ hpk, ih]

/-- C3: `update_rl_table` replaces Q(s,a) by
Q(s,a) + α·(r + γ·max over the valid next actions of Q(s',a') − Q(s,a)),
where a missing (state, action) pair reads as 0 and α = 0.1, γ = 0.9;
the `pymax` term is a genuine maximum over the valid next actions (an
upper bound attained by some valid action).  The update is a pure
function of its inputs, hence deterministic. -/
theorem update_rl_table_correct (q : QTable) (state action : Str) (reward : ℚ)
    (next_state : Str) (valid_next_actions : List Str)
    (h : valid_next_actions ≠ []) :
    q_get (update_rl_table q state action reward next_state valid_next_actions).1
        (state, action)
      = q_get q (state, action) +
        alpha * (reward + gamma *
          pymax (valid_next_actions.map (fun a => q_get q (next_state, a))) -
          q_get q (state, action)) ∧
    (∀ a ∈ valid_next_actions,
      q_get q (next_state, a) ≤
        pymax (valid_next_actions.map (fun a => q_get q (next_state, a)))) ∧
    (∃ a ∈ valid_next_actions,
      pymax (valid_next_actions.map (fun a => q_get q (next_state, a)))
        = q_get q (next_state, a)) := by
  refine ⟨?_, ?_, ?_⟩
  · simp only [update_rl_table]
    exact q_get_q_set_self q _ _
  · intro a ha
    exact pymax_is_ub _ _ (List.mem_map_of_mem _ ha)
  · have hmap : valid_next_actions.map (fun a => q_get q (next_state, a)) ≠ [] := by
      simpa using h
    obtain ⟨a, ha, hEq⟩ := List.mem_map.mp (pymax_mem _ hmap)
    exact ⟨a, ha, hEq.symm⟩

/-- Witness for `update_rl_table_correct`: updating the empty table for
state s, action a, reward 1 with one valid next action. -/
theorem update_rl_table_correct_witness :
    q_get (update_rl_table [] "s".data "a".data 1 "t".data [s_deploy]).1
        ("s".data, "a".data)
      = q_get [] ("s".data, "a".data) +
        alpha * (1 + gamma *
          pymax ([s_deploy].map (fun a => q_get [] ("t".data, a))) -
          q_get [] ("s".data, "a".data)) :=
  (update_rl_table_correct [] "s".data "a".data 1 "t".data [s_deploy] (by decide)).1

/-- Splitting at the first underscore undoes the underscore join when
the left part is underscore-free. -/
theorem break_underscore_join (s a : Str) (hs : '_' ∉ s) :
    break_underscore (s ++ '_' :: a) = some (s, a) := by
  induction s with
  | nil => simp [break_underscore]
  | cons c s ih =>
    have hc : ¬ (c = '_') := fun hEq => hs (by rw [hEq]; exact List.mem_cons_self _ _)
    have hs2 : '_' ∉ s := fun hm => hs (List.mem_cons_of_mem c hm)
    simp only [List.cons_append, break_underscore]
    rw [if_neg hc, List.append_eq, ih hs2]
    rfl

/-- `tuple(k.split('_', 1))` recovers the pair from a joined key whose
state part is underscore-free. -/
theorem py_split_key_join (s a : Str) (hs : '_' ∉ s) :
    py_split_key (join_key s a) = Sum.inr (s, a) := by
  simp [py_split_key, join_key, break_underscore_join s a hs]

/-- C7: for a Q-table whose state and action strings do not contain the
key-join delimiter, exporting with `save_policy` and re-importing with
`load_policy` yields exactly the original (state, action) → value
mapping (every entry comes back as the same pair key with the same
value, in the same order). -/
theorem save_load_policy_roundtrip (q : QTable)
    (h : ∀ p ∈ q, '_' ∉ p.1.1 ∧ '_' ∉ p.1.2) :
    load_policy (save_policy q) = q.map (fun p => (Sum.inr p.1, p.2)) := by
  simp only [load_policy, save_policy, List.map_map]
  apply List.map_congr_left
  intro p hp
  simp only [Function.comp]
  rw [show join_key p.1.1 p.1.2 = join_key p.1.1 p.1.2 from rfl,
    py_split_key_join p.1.1 p.1.2 (h p hp).1]

/-- Witness for `save_load_policy_roundtrip` on a one-entry table with
underscore-free state and action. -/
theorem save_load_policy_roundtrip_witness :
    load_policy (save_policy [(("s".data, "a".data), 5)]) =
      [(("s".data, "a".data), 5)].map (fun p => (Sum.inr p.1, p.2)) :=
  save_load_policy_roundtrip [(("s".data, "a".data), 5)] (by decide)

/-- C4 (counterexample): a spec with inverted scaling bounds
(min_workers = 5 > max_workers = 3, both inside [1, 10]) passes
`_validate_app_spec` and loads without error, contradicting the claim
that inverted bounds fail to load. -/
theorem inverted_bounds_load_counterexample :
    load_app_spec_checked inverted_bounds_spec = some inverted_bounds_spec ∧
      (5 : ℤ) > 3 := by
  decide

/-- C4 (amended): loading an app spec fails (raises, never silently
corrects) when the spec declares a custom action outside the bounded
action vocabulary, when min_workers < 1, or when max_workers exceeds
the global cap of 10; the relation min_workers ≤ max_workers is NOT
checked, so inverted bounds within [1, 10] load successfully. -/
theorem validate_app_spec_rejections :
    (∀ (spec : AppSpec) (acts : List Str) (a : Str), spec.custom_actions = some acts →
      a ∈ acts → a ∉ allowed_actions → load_app_spec_checked spec = none) ∧
    (∀ (spec : AppSpec) (sc : Scaling) (m : ℤ), spec.scaling = some sc →
      sc.min_workers = some m → m < 1 → load_app_spec_checked spec = none) ∧
    (∀ (spec : AppSpec) (sc : Scaling) (m : ℤ), spec.scaling = some sc →
      sc.max_workers = some m → m > 10 → load_app_spec_checked spec = none) := by
  refine ⟨?_, ?_, ?_⟩
  · intro spec acts a hca hmem hnotal
    have hall : (acts.all (fun x => decide (x ∈ allowed_actions))) = false :=
      List.all_eq_false.mpr ⟨a, hmem, by simp [hnotal]⟩
    simp [load_app_spec_checked, validate_app_spec, hca, hall]
  · intro spec sc m hsc hm hlt
    simp [load_app_spec_checked, validate_app_spec, hsc, hm, hlt]
  · intro spec sc m hsc hm hgt
    simp [load_app_spec_checked, validate_app_spec, hsc, hm, hgt]

/-- Witness for `validate_app_spec_rejections`: a spec declaring the
out-of-vocabulary custom action "explode" fails to load. -/
theorem validate_app_spec_rejections_witness :
    load_app_spec_checked
        { has_name := true, has_type := true,
          custom_actions := some [['e', 'x', 'p', 'l', 'o', 'd', 'e']] }
      = none :=
  validate_app_spec_rejections.1 _ _ ['e', 'x', 'p', 'l', 'o', 'd', 'e'] rfl
    (by decide) (by decide)

/-- C10: the worker count `OrchestratorAPI.scale` passes to the
underlying executor is always clamped to [1, 3] (the hardcoded wrapper
cap, independent of any spec); with no explicit count, direction up
requests 2 workers and direction down requests 1. -/
theorem scale_requested_workers_clamped :
    (∀ (direction : Str) (w : ℤ), ∃ v, scale_requested_workers direction (some w) = some v ∧
      1 ≤ v ∧ v ≤ 3) ∧
    scale_requested_workers s_up none = some 2 ∧
    scale_requested_workers s_down none = some 1 := by
  refine ⟨?_, by decide, by decide⟩
  intro direction w
  refine ⟨max (min w 3) 1, rfl, le_max_right _ _, ?_⟩
  exact max_le (min_le_right w 3) (by norm_num)

/-- Unfolding of `of_digits_rev` on a cons. -/
theorem of_digits_rev_cons (d : ℕ) (l : List ℕ) :
    of_digits_rev (d :: l) = d + 10 * of_digits_rev l := rfl

/-- The little-endian digit expansion evaluates back to the number. -/
theorem of_digits_core (fuel n : ℕ) (h : n ≤ fuel) :
    of_digits_rev (digits_core fuel n) = n := by
  induction fuel generalizing n with
  | zero =>
    have : n = 0 := by omega
    simp [this, digits_core, of_digits_rev]
  | succ fuel ih =>
    simp only [digits_core]
    by_cases hn : n = 0
    · simp [hn, of_digits_rev]
    · rw [if_neg hn, of_digits_rev_cons, ih (n / 10) (by omega)]
      omega

/-- Every entry of a digit expansion is a decimal digit. -/
theorem digits_core_lt_ten (fuel n : ℕ) : ∀ d ∈ digits_core fuel n, d < 10 := by
  induction fuel generalizing n with
  | zero => simp [digits_core]
  | succ fuel ih =>
    intro d hd
    simp only [digits_core] at hd
    by_cases hn : n = 0
    · simp [hn] at hd
    · rw [if_neg hn] at hd
      rcases List.mem_cons.mp hd with rfl | hd
      · exact Nat.mod_lt _ (by norm_num)
      · exact ih _ d hd

/-- `undigit` is a left inverse of `digit_char` on decimal digits. -/
theorem undigit_digit_char (d : ℕ) (h : d < 10) : undigit (digit_char d) = d := by
  interval_cases d <;> decide

/-- Folding the parse step over a printed digit list recovers the
value. -/
theorem parse_digits_aux (l : List ℕ) (hl : ∀ d ∈ l, d < 10) (a : ℕ) :
    List.foldl (fun acc c => acc * 10 + undigit c) a ((l.reverse).map digit_char)
      = a * 10 ^ l.length + of_digits_rev l := by
  induction l generalizing a with
  | nil => simp [of_digits_rev]
  | cons d l ih =>
    have hd : d < 10 := hl d (List.mem_cons_self _ _)
    have hl2 : ∀ x ∈ l, x < 10 := fun x hx => hl x (List.mem_cons_of_mem _ hx)
    simp only [List.reverse_cons, List.map_append, List.map_cons, List.map_nil,
      List.foldl_append, List.foldl_cons, List.foldl_nil]
    rw [ih hl2, undigit_digit_char d hd, of_digits_rev_cons]
    simp only [List.length_cons, pow_succ]
    ring

/-- `parse_digits` is a left inverse of `nat_str`. -/
theorem parse_nat_str (n : ℕ) : parse_digits (nat_str n) = n := by
  by_cases hn : n = 0
  · subst hn
    decide
  · simp only [nat_str, if_neg hn, parse_digits, nat_digits_rev]
    rw [parse_digits_aux _ (digits_core_lt_ten n n), of_digits_core n n le_rfl]
    simp

/-- Python decimal printing of naturals is injective. -/
theorem nat_str_injective (m n : ℕ) (h : nat_str m = nat_str n) : m = n := by
  have hp := congrArg parse_digits h
  rwa [parse_nat_str, parse_nat_str] at hp

/-- Every character of a printed natural is a decimal digit, hence has
code point at least 48. -/
theorem nat_str_chars_ge (n : ℕ) (c : Char) (hc : c ∈ nat_str n) : 48 ≤ c.toNat := by
  unfold nat_str at hc
  by_cases hn : n = 0
  · rw [if_pos hn] at hc
    simp only [List.mem_singleton] at hc
    subst hc
    decide
  · rw [if_neg hn] at hc
    obtain ⟨d, hd, rfl⟩ := List.mem_map.mp hc
    have hd10 : d < 10 := digits_core_lt_ten n n d (List.mem_reverse.mp hd)
    interval_cases d <;> decide

/-- Python decimal printing of integers is injective. -/
theorem int_str_injective (z1 z2 : ℤ) (h : int_str z1 = int_str z2) : z1 = z2 := by
  unfold int_str at h
  by_cases h1 : z1 < 0 <;> by_cases h2 : z2 < 0
  · rw [if_pos h1, if_pos h2] at h
    simp only [List.cons.injEq, true_and] at h
    have := nat_str_injective _ _ h
    omega
  · rw [if_pos h1, if_neg h2] at h
    have hmem : '-' ∈ nat_str z2.toNat := by
      rw [← h]
      exact List.mem_cons_self _ _
    have := nat_str_chars_ge _ _ hmem
    exact absurd this (by decide)
  · rw [if_neg h1, if_pos h2] at h
    have hmem : '-' ∈ nat_str z1.toNat := by
      rw [h]
      exact List.mem_cons_self _ _
    have := nat_str_chars_ge _ _ hmem
    exact absurd this (by decide)
  · rw [if_neg h1, if_neg h2] at h
    have := nat_str_injective _ _ h
    omega

/-- Concatenation around a single underscore is injective when the left
parts are underscore-free. -/
theorem append_underscore_inj (a : Str) : ∀ (c b d : Str), '_' ∉ a → '_' ∉ c →
    a ++ '_' :: b = c ++ '_' :: d → a = c ∧ b = d := by
  induction a with
  | nil =>
    intro c b d _ hc hEq
    match c with
    | [] => simpa using hEq
    | x :: c2 =>
      simp only [List.nil_append, List.cons_append, List.cons.injEq] at hEq
      refine absurd ?_ hc
      rw [hEq.1]
      exact List.mem_cons_self x c2
  | cons y a2 ih =>
    intro c b d ha hc hEq
    match c with
    | [] =>
      simp only [List.cons_append, List.nil_append, List.cons.injEq] at hEq
      refine absurd ?_ ha
      rw [← hEq.1]
      exact List.mem_cons_self y a2
    | x :: c2 =>
      simp only [List.cons_append, List.cons.injEq] at hEq
      obtain ⟨rfl, hEq2⟩ := hEq
      obtain ⟨hA, hB⟩ := ih c2 b d (fun hm => ha (List.mem_cons_of_mem _ hm))
        (fun hm => hc (List.mem_cons_of_mem _ hm)) hEq2
      exact ⟨by rw [hA], hB⟩

/-- C5 (counterexample): the state key is NOT injective over arbitrary
app and env identifiers: the underscore join is ambiguous, so the
distinct tuples (app = a, env = b_c) and (app = a_b, env = c) with the
same status and bucket produce the same key. -/
theorem state_key_not_injective_counterexample :
    state_key "a".data "b_c".data s_healthy 0
        = state_key "a_b".data "c".data s_healthy 0 ∧
      ¬ ("a".data = "a_b".data ∧ "b_c".data = "c".data) := by
  decide

/-- C5 (amended): the discretized state key is stable — equal
(app, env, status, error-rate-bucket) tuples give equal keys — and it is
injective provided the app, env and status strings contain no
underscore (the key-join delimiter): under that proviso the key equals
another key exactly when the tuples coincide. -/
theorem state_key_stable_injective (a1 e1 s1 : Str) (b1 : ℤ)
    (a2 e2 s2 : Str) (b2 : ℤ)
    (ha1 : '_' ∉ a1) (he1 : '_' ∉ e1) (hs1 : '_' ∉ s1)
    (ha2 : '_' ∉ a2) (he2 : '_' ∉ e2) (hs2 : '_' ∉ s2) :
    state_key a1 e1 s1 b1 = state_key a2 e2 s2 b2 ↔
      (a1 = a2 ∧ e1 = e2 ∧ s1 = s2 ∧ b1 = b2) := by
  constructor
  · intro h
    unfold state_key at h
    obtain ⟨hA, h⟩ := append_underscore_inj a1 a2 _ _ ha1 ha2 h
    obtain ⟨hE, h⟩ := append_underscore_inj e1 e2 _ _ he1 he2 h
    obtain ⟨hS, h⟩ := append_underscore_inj s1 s2 _ _ hs1 hs2 h
    exact ⟨hA, hE, hS, int_str_injective _ _ (List.append_cancel_left h)⟩
  · rintro ⟨rfl, rfl, rfl, rfl⟩
    rfl

/-- Witness for `state_key_stable_injective` at a concrete
underscore-free tuple. -/
theorem state_key_stable_injective_witness :
    state_key "web".data "prod".data s_healthy 7
        = state_key "web".data "prod".data s_healthy 7 ↔
      ("web".data = "web".data ∧ "prod".data = "prod".data ∧
        s_healthy = s_healthy ∧ (7 : ℤ) = 7) :=
  state_key_stable_injective _ _ _ _ _ _ _ _ (by decide) (by decide) (by decide)
    (by decide) (by decide) (by decide)

end MyFusionRL
